import Mathlib

/-!
Shallow embedding of the Cold-Calling-Display dashboard.

The authoritative sources are:
* `src/unnamed/part_000` — the filtered dashboard component (`App` with
  industry filter, URL `industry` parameter, `handleJump`); the spec's
  §3–§4 describe this component, so the state machine below embeds it.
* `src/src/App.tsx` — the variant without the industry filter; its
  `commitIndex` (lines 143–149) differs from `handleJump` and is embedded
  separately.

JS strings are Lean `String`s; JS numbers holding integers are `Int`
(the app never produces non-integers); `parseInt` returning `NaN` is
`Option.none`; `localStorage` is a record of two `Option String` cells
(`none` = key absent); the `industry` URL parameter is an `Option String`.
-/

set_option maxHeartbeats 1000000

namespace ColdCalling

/-- One parsed business row (`type Business` in the source). -/
structure Business where
  site_url : String
  business_name : String
  industry : String
  company_name : String
  city : String
  phone_number : String
deriving DecidableEq, Repr

/-- One raw CSV record as produced by the external CSV library
(`Papa.parse` with a header row): each column may be absent
(`undefined` in the source), hence `Option String`. -/
structure RawBusiness where
  site_url : Option String
  business_name : Option String
  industry : Option String
  company_name : Option String
  city : Option String
  phone_number : Option String
deriving DecidableEq, Repr

/-- Model of `Math.min(Math.max(value, min), max)` — the source's `clamp`
(part_000 lines 20–21), at integer values. -/
def clamp (value lo hi : Int) : Int := min (max value lo) hi

/-- Strip whitespace characters from both ends of a character list. -/
def jsTrimList (l : List Char) : List Char :=
  ((l.dropWhile Char.isWhitespace).reverse.dropWhile Char.isWhitespace).reverse

/-- Model of JS `String.prototype.trim`: strip whitespace characters from
both ends of the string. -/
def jsTrim (s : String) : String :=
  String.mk (jsTrimList s.data)

/-- Model of `field?.trim() ?? ''` on an optional CSV column. -/
def trimField (f : Option String) : String := (f.map jsTrim).getD ""

/-- Per-row normalisation inside `parseBusinesses` (part_000 lines 39–46):
trim every field, absent columns become the empty string. -/
def cleanBusiness (b : RawBusiness) : Business :=
  { site_url := trimField b.site_url
    business_name := trimField b.business_name
    industry := trimField b.industry
    company_name := trimField b.company_name
    city := trimField b.city
    phone_number := trimField b.phone_number }

/-- Keep-filter inside `parseBusinesses` (part_000 lines 47–54):
`Boolean(business_name || company_name || site_url || phone_number)`;
JS string truthiness is non-emptiness. -/
def keepBusiness (b : Business) : Bool :=
  b.business_name != "" || b.company_name != "" || b.site_url != "" || b.phone_number != ""

/-- Map-then-filter stage of `parseBusinesses` (part_000 lines 31–57); the
text-to-records step is the external CSV library and is out of scope, so the
input here is the library's record list. -/
def parseBusinesses (rows : List RawBusiness) : List Business :=
  (rows.map cleanBusiness).filter keepBusiness

/-- Model of `phone.replace(/\D/g, '')`: the digit characters of the string. -/
def digitsOf (p : String) : List Char := p.data.filter Char.isDigit

/-- Character list of the template
`` `(${digits.slice(0, 3)}) ${digits.slice(3, 6)}-${digits.slice(6)}` ``;
`slice(0,3)`, `slice(3,6)`, `slice(6)` are take/drop on the digit list. -/
def phoneBuild (digits : List Char) : List Char :=
  ('(' :: digits.take 3) ++ (')' :: ' ' :: (digits.drop 3).take 3) ++ ('-' :: digits.drop 6)

/-- Model of `formatPhoneNumber` (part_000 lines 23–29): strip non-digits;
if exactly 10 remain, format as `(XXX) XXX-XXXX`, otherwise return the
input verbatim. -/
def formatPhoneNumber (phone : String) : String :=
  let digits := phone.data.filter Char.isDigit
  if digits.length = 10 then String.mk (phoneBuild digits)
  else phone

/-- Value of the leading digit run of a character list (`none` when the run is
empty, which is the `NaN` outcome) — the digit-consuming part of JS `parseInt`. -/
def leadingDigitsVal (l : List Char) : Option Nat :=
  let ds := l.takeWhile Char.isDigit
  if ds.isEmpty then none
  else some (ds.foldl (fun n c => n * 10 + (c.toNat - 48)) 0)

/-- Model of JS `parseInt(s, 10)`: skip leading whitespace, optional sign,
then the value of the longest digit run; `none` models `NaN`. -/
def jsParseInt (s : String) : Option Int :=
  match s.data.dropWhile Char.isWhitespace with
  | [] => none
  | c :: rest =>
    if c = '-' then (leadingDigitsVal rest).map (fun n => -(n : Int))
    else if c = '+' then (leadingDigitsVal rest).map (fun n => (n : Int))
    else (leadingDigitsVal (c :: rest)).map (fun n => (n : Int))

/-- Decimal digit characters of `n`, most significant first. -/
def natDigits (n : Nat) : List Char :=
  if _h : n < 10 then [Nat.digitChar n]
  else natDigits (n / 10) ++ [Nat.digitChar (n % 10)]
termination_by n
decreasing_by exact Nat.div_lt_self (by omega) (by omega)

/-- Decimal representation of a natural number. -/
def natToString (n : Nat) : String := String.mk (natDigits n)

/-- Model of JS `String(i)` at an integer value. -/
def intToString (i : Int) : String :=
  if i < 0 then String.mk ('-' :: natDigits i.natAbs) else natToString i.natAbs

/-- Model of `getStoredIndex(total)` (part_000 lines 59–68). `stored` is the
content of the index storage cell; `none` covers both an absent key and a
read that threw (the source's `catch` branch also returns 0). An empty
string is falsy in JS, so `stored ? parseInt(stored, 10) : 0` yields 0 for
it; `Number.isFinite(NaN)` is false, sending the no-digit case to 0. -/
def getStoredIndex (total : Nat) (stored : Option String) : Int :=
  if total = 0 then 0
  else
    let parsed : Option Int :=
      match stored with
      | none => some 0
      | some s => if s = "" then some 0 else jsParseInt s
    match parsed with
    | some v => clamp v 0 ((total : Int) - 1)
    | none => 0

/-- Model of `filteredBusinesses` (part_000 lines 111–114):
`if (!selectedIndustry) return businesses;
 return businesses.filter(b => b.industry === selectedIndustry)`. -/
def filteredBusinesses (businesses : List Business) (selectedIndustry : String) : List Business :=
  if selectedIndustry = "" then businesses
  else businesses.filter (fun b => b.industry == selectedIndustry)

/-- Model of `handleJump` (part_000 lines 187–194): a 1-based numeric input is
accepted only when `1 <= n <= total` (`NaN` fails both comparisons);
otherwise the current index is kept. -/
def handleJump (total : Nat) (input : String) (current : Int) : Int :=
  match jsParseInt input with
  | some n => if 1 ≤ n ∧ n ≤ (total : Int) then n - 1 else current
  | none => current

/-- Model of `commitIndex` (App.tsx lines 143–149): a numeric input is clamped
into range via `clamp(parsed - 1, 0, total - 1)`; a non-numeric input
(`Number.isFinite` false) leaves the index unchanged. -/
def commitIndex (total : Nat) (inputIndex : String) (current : Int) : Int :=
  match jsParseInt inputIndex with
  | some parsed => clamp (parsed - 1) 0 ((total : Int) - 1)
  | none => current

/-- The two localStorage cells (`STORAGE_KEY`, `INDUSTRY_STORAGE_KEY`);
`none` means the key is absent. -/
structure Store where
  index : Option String
  industry : Option String
deriving DecidableEq, Repr

/-- The URL query string, reduced to its `industry` parameter. -/
structure Url where
  industry : Option String
deriving DecidableEq, Repr

/-- In-memory component state together with the browser-owned store and URL.
`restoredOnce` is the source's `initializedRef`, `hydrated` is the source's
`hasInitializedRef` (the one-time hydration flag gating every write). -/
structure AppState where
  businesses : List Business
  selectedIndustry : String
  currentIndex : Int
  restoredOnce : Bool
  hydrated : Bool
  store : Store
  url : Url
deriving DecidableEq, Repr

/-- Length of the active (filtered) subsequence — the source's `total`. -/
def totalOf (s : AppState) : Nat :=
  (filteredBusinesses s.businesses s.selectedIndustry).length

/-- Persist effect (part_000 lines 136–155, deps `[currentIndex,
selectedIndustry]`): suppressed until `hasInitializedRef` is set; otherwise
writes both storage keys and rewrites the `industry` URL parameter
(removed when the filter is empty, `params.delete`). -/
def persistEffect (s : AppState) : AppState :=
  if s.hydrated then
    { s with
      store := { index := some (intToString s.currentIndex)
                 industry := some s.selectedIndustry }
      url := { industry := if s.selectedIndustry = "" then none else some s.selectedIndustry } }
  else s

/-- Restore effect body (part_000 lines 158–164, deps `[total]`): the first
time the active subsequence is non-empty, set both refs and re-read the
stored index, clamped to the new length. -/
def restoreEffect (s : AppState) : AppState :=
  if s.restoredOnce = false ∧ 0 < totalOf s then
    { s with restoredOnce := true, hydrated := true,
             currentIndex := getStoredIndex (totalOf s) s.store.index }
  else s

/-- Commit an index change: when the value actually changes, React re-renders
and the persist effect (whose deps include `currentIndex`) runs; a
same-value `setCurrentIndex` bails out with no re-render and no effect. -/
def setIndex (s : AppState) (i : Int) : AppState :=
  if i = s.currentIndex then s else persistEffect { s with currentIndex := i }

/-- The `setCurrentIndex(0)` performed by the filter-reset effect. -/
def resetIndexZero (s : AppState) : AppState := { s with currentIndex := 0 }

/-- State reached during a filter change after the first two effects of the
commit have run: the persist effect (on the new filter and the old index,
with the refs still holding their pre-event values) and then the restore
effect, which fires only when its `[total]` dep actually changed. -/
def filterSwitch (s : AppState) (v : String) : AppState :=
  if totalOf (persistEffect { s with selectedIndustry := v }) = totalOf s
  then persistEffect { s with selectedIndustry := v }
  else restoreEffect (persistEffect { s with selectedIndustry := v })

/-- User and lifecycle events driving the dashboard. `dataLoaded bs` is the
startup fetch resolving with CSV text whose parse is `bs`. -/
inductive Event where
  | dataLoaded (bs : List Business)
  | setFilter (v : String)
  | goPrev
  | goNext
  | jump (input : String)
deriving DecidableEq, Repr

/-- One event, with React's effect cascade flattened to its outcome. Returns
the new state and the number of times the filter-reset effect (part_000
lines 167–171, deps `[selectedIndustry]`) executed its `setCurrentIndex(0)`.

* `dataLoaded`: `setCsvText` re-renders; the persist effect's deps are
  unchanged so it does not run; the restore effect runs (its deps `[total]`
  changed) and, if it changed the index, the follow-up render runs the
  persist effect (now hydrated).
* `setFilter v`: a same-value select bails out. Otherwise, in order: the
  persist effect runs on the new filter and the old index (refs still
  pre-event); the restore effect runs if the filtered length changed; the
  reset effect runs (deps changed) and, when `hasInitializedRef` is set by
  now, forces the index to 0 — the follow-up render re-runs the persist
  effect exactly when the index dep actually changed from the previous run
  (old index nonzero).
* `goPrev`/`goNext`: the buttons are disabled outside `canGoBack`/`canGoNext`
  (part_000 lines 174–175, 200–208, 349–358).
* `jump`: `handleJump` via `setIndex`. -/
def step (s : AppState) : Event → AppState × Nat
  | .dataLoaded bs =>
    let s1 := { s with businesses := bs }
    let s2 := restoreEffect s1
    (if s2.currentIndex = s1.currentIndex then s2 else persistEffect s2, 0)
  | .setFilter v =>
    if v = s.selectedIndustry then (s, 0)
    else if (filterSwitch s v).hydrated then
      (if s.currentIndex = 0 then resetIndexZero (filterSwitch s v)
       else persistEffect (resetIndexZero (filterSwitch s v)), 1)
    else (filterSwitch s v, 0)
  | .goPrev =>
    (if 0 < s.currentIndex then setIndex s (max 0 (s.currentIndex - 1)) else s, 0)
  | .goNext =>
    (if s.currentIndex < (totalOf s : Int) - 1 then
      setIndex s (min ((totalOf s : Int) - 1) (s.currentIndex + 1))
     else s, 0)
  | .jump input => (setIndex s (handleJump (totalOf s) input s.currentIndex), 0)

/-- Initial value of `selectedIndustry` (part_000 lines 96–108): the URL
parameter when truthy, else the stored value (`getItem(...) || ''`; a
throwing read also yields the empty string). -/
def initialIndustry (st : Store) (u : Url) : String :=
  match u.industry with
  | some v => if v = "" then st.industry.getD "" else v
  | none => st.industry.getD ""

/-- A fresh mount: the state initialisers (businesses empty, index from
`getStoredIndex(0)`, both refs false), then the first run of every effect:
the persist effect is suppressed because `hasInitializedRef` is still false,
the restore effect sees an empty dataset, and the mount-time reset effect is
likewise gated on `hasInitializedRef`. -/
def mount (st : Store) (u : Url) : AppState :=
  let s0 : AppState :=
    { businesses := []
      selectedIndustry := initialIndustry st u
      currentIndex := getStoredIndex 0 st.index
      restoredOnce := false
      hydrated := false
      store := st
      url := u }
  let s1 := restoreEffect (persistEffect s0)
  if s1.hydrated then { s1 with currentIndex := 0 } else s1

/-- Drive a state through a list of events. -/
def run (s : AppState) (es : List Event) : AppState :=
  es.foldl (fun t e => (step t e).1) s

/-! ## Arithmetic helpers -/

theorem clamp_mem (v lo hi : Int) (h : lo ≤ hi) : lo ≤ clamp v lo hi ∧ clamp v lo hi ≤ hi :=
  ⟨le_min (le_max_right v lo) h, min_le_right _ _⟩

theorem clamp_eq_self (v lo hi : Int) (h1 : lo ≤ v) (h2 : v ≤ hi) : clamp v lo hi = v := by
  unfold clamp
  rw [max_eq_left h1, min_eq_left h2]

theorem digitChar_spec (d : Nat) (hd : d < 10) :
    (Nat.digitChar d).isDigit = true ∧ (Nat.digitChar d).isWhitespace = false ∧
    Nat.digitChar d ≠ '-' ∧ Nat.digitChar d ≠ '+' ∧ (Nat.digitChar d).toNat = 48 + d := by
  interval_cases d <;> exact ⟨by decide, by decide, by decide, by decide, by decide⟩

theorem natDigits_ne_nil (n : Nat) : natDigits n ≠ [] := by
  rw [natDigits]
  split <;> simp

theorem natDigits_digits (n : Nat) : ∀ c ∈ natDigits n, ∃ d, d < 10 ∧ c = Nat.digitChar d := by
  induction n using Nat.strong_induction_on with
  | _ n ih =>
    rw [natDigits]
    split
    · next h =>
      intro c hc
      simp only [List.mem_singleton] at hc
      exact ⟨n, h, hc⟩
    · next h =>
      intro c hc
      rw [List.mem_append] at hc
      rcases hc with hc | hc
      · exact ih (n / 10) (Nat.div_lt_self (by omega) (by omega)) c hc
      · simp only [List.mem_singleton] at hc
        exact ⟨n % 10, Nat.mod_lt _ (by omega), hc⟩

theorem natDigits_foldl (n : Nat) :
    (natDigits n).foldl (fun acc c => acc * 10 + (c.toNat - 48)) 0 = n := by
  induction n using Nat.strong_induction_on with
  | _ n ih =>
    rw [natDigits]
    split
    · next h =>
      simp only [List.foldl_cons, List.foldl_nil]
      have := (digitChar_spec n h).2.2.2.2
      omega
    · next h =>
      rw [List.foldl_append, ih (n / 10) (Nat.div_lt_self (by omega) (by omega))]
      simp only [List.foldl_cons, List.foldl_nil]
      have := (digitChar_spec (n % 10) (Nat.mod_lt _ (by omega))).2.2.2.2
      omega

theorem natToString_parse (n : Nat) : jsParseInt (natToString n) = some (n : Int) := by
  have hall : ∀ x ∈ natDigits n, Char.isDigit x = true := by
    intro x hx
    obtain ⟨e, he, hxe⟩ := natDigits_digits n x hx
    rw [hxe]
    exact (digitChar_spec e he).1
  have hval : leadingDigitsVal (natDigits n) = some n := by
    simp only [leadingDigitsVal, List.takeWhile_eq_self_iff.mpr (by exact_mod_cast hall)]
    rw [if_neg (by simp [natDigits_ne_nil n]), natDigits_foldl]
  obtain ⟨c, rest, hcons⟩ := List.exists_cons_of_ne_nil (natDigits_ne_nil n)
  obtain ⟨d, hd, hcd⟩ := natDigits_digits n c (by rw [hcons]; exact List.mem_cons_self _ _)
  have hws : Char.isWhitespace c = false := by rw [hcd]; exact (digitChar_spec d hd).2.1
  have hm : c ≠ '-' := by rw [hcd]; exact (digitChar_spec d hd).2.2.1
  have hp : c ≠ '+' := by rw [hcd]; exact (digitChar_spec d hd).2.2.2.1
  have hdata : (natToString n).data = natDigits n := rfl
  unfold jsParseInt
  rw [hdata, hcons, List.dropWhile_cons, if_neg (by simp [hws])]
  show (if c = '-' then (leadingDigitsVal rest).map (fun m => -(m : Int))
        else if c = '+' then (leadingDigitsVal rest).map (fun m => (m : Int))
        else (leadingDigitsVal (c :: rest)).map (fun m => (m : Int))) = some (n : Int)
  rw [if_neg hm, if_neg hp, ← hcons, hval]
  rfl

theorem natToString_ne_empty (n : Nat) : natToString n ≠ "" := by
  intro hbad
  have h1 : (natToString n).data = natDigits n := rfl
  rw [hbad] at h1
  exact natDigits_ne_nil n h1.symm

theorem getStoredIndex_restore (L k : Nat) (h : k < L) :
    getStoredIndex L (some (natToString k)) = (k : Int) := by
  simp only [getStoredIndex, if_neg (natToString_ne_empty k), natToString_parse]
  rw [if_neg (show ¬L = 0 by omega)]
  exact clamp_eq_self _ _ _ (by omega) (by omega)

/-! ## C9 — `getStoredIndex` is total and in bounds -/

/-- C9: for every length `total` and every possible content of the stored
index cell (absent, empty, non-numeric, negative, or larger than `total`),
`getStoredIndex` returns 0 when `total = 0` and otherwise an integer in
`[0, total - 1]`; corrupted or missing storage can never produce an
out-of-range index. -/
theorem spec_C9_getStoredIndex_safe (total : Nat) (stored : Option String) :
    (total = 0 → getStoredIndex total stored = 0) ∧
    (0 < total →
      0 ≤ getStoredIndex total stored ∧ getStoredIndex total stored ≤ (total : Int) - 1) := by
  constructor
  · intro h
    simp [getStoredIndex, h]
  · intro h
    have hle : (0 : Int) ≤ (total : Int) - 1 := by omega
    simp only [getStoredIndex]
    rw [if_neg (show ¬total = 0 by omega)]
    rcases stored with _ | s
    · simpa using clamp_mem 0 0 ((total : Int) - 1) hle
    · by_cases hs : s = ""
      · simp only [if_pos hs]
        simpa using clamp_mem 0 0 ((total : Int) - 1) hle
      · rcases hps : jsParseInt s with _ | v
        · simp only [if_neg hs, hps]
          omega
        · simp only [if_neg hs, hps]
          exact clamp_mem v 0 ((total : Int) - 1) hle

theorem spec_C9_getStoredIndex_safe_witness :
    (0 ≤ getStoredIndex 3 (some "99") ∧ getStoredIndex 3 (some "99") ≤ (3 : Int) - 1) ∧
    getStoredIndex 0 (some "7") = 0 :=
  ⟨(spec_C9_getStoredIndex_safe 3 (some "99")).2 (by decide),
   (spec_C9_getStoredIndex_safe 0 (some "7")).1 (by decide)⟩

/-! ## C8 — phone formatting -/

theorem formatPhoneNumber_of_ten (p : String) (h : (digitsOf p).length = 10) :
    formatPhoneNumber p = String.mk (phoneBuild (digitsOf p)) := by
  simp only [digitsOf] at h
  simp only [formatPhoneNumber, digitsOf, if_pos h]

theorem formatPhoneNumber_of_ne (p : String) (h : (digitsOf p).length ≠ 10) :
    formatPhoneNumber p = p := by
  simp only [digitsOf] at h
  simp only [formatPhoneNumber, if_neg h]

/-- C8: for every phone string `p`, the displayed phone is `(XXX) XXX-XXXX`
built from the digit characters of `p` when stripping all non-digits from
`p` leaves exactly 10 digits, and is `p` verbatim otherwise. -/
theorem spec_C8_phone_format (p : String) :
    ((digitsOf p).length = 10 → formatPhoneNumber p = String.mk (phoneBuild (digitsOf p))) ∧
    ((digitsOf p).length ≠ 10 → formatPhoneNumber p = p) :=
  ⟨formatPhoneNumber_of_ten p, formatPhoneNumber_of_ne p⟩

theorem spec_C8_phone_format_witness :
    formatPhoneNumber "5551234567" = "(555) 123-4567" ∧
    formatPhoneNumber "555-CALL-NOW" = "555-CALL-NOW" := by
  constructor
  · have h := (spec_C8_phone_format "5551234567").1 (by decide)
    rw [h]
    decide
  · exact (spec_C8_phone_format "555-CALL-NOW").2 (by decide)

/-! ## C4 — jump-to-position -/

/-- C4 counterexample: in the `App.tsx` variant (the claim's cited
`commitIndex`), `jumpTo(0)` with 4 rows and current index 2 is not ignored:
the out-of-range numeric input is clamped, moving the index to 0. -/
theorem spec_C4_jump_cex : commitIndex 4 "0" 2 = 0 ∧ commitIndex 4 "0" 2 ≠ 2 := by
  constructor <;> decide

/-- C4 amended: with an active subsequence of length `L > 0`, a numeric jump
input `n` with `1 ≤ n ≤ L` sets the index to `n - 1` in both variants; a
non-numeric input is ignored in both; an out-of-range numeric input is
ignored (index unchanged) by the filtered dashboard's `handleJump`, but the
`App.tsx` `commitIndex` instead clamps it to `clamp(n - 1, 0, L - 1)`. -/
theorem spec_C4_jump (L : Nat) (i n : Int) (input : String) (_hL : 0 < L) :
    (jsParseInt input = some n →
      commitIndex L input i = clamp (n - 1) 0 ((L : Int) - 1) ∧
      (1 ≤ n → n ≤ (L : Int) → commitIndex L input i = n - 1) ∧
      (1 ≤ n → n ≤ (L : Int) → handleJump L input i = n - 1) ∧
      (¬(1 ≤ n ∧ n ≤ (L : Int)) → handleJump L input i = i)) ∧
    (jsParseInt input = none → commitIndex L input i = i ∧ handleJump L input i = i) := by
  constructor
  · intro h
    have hc : commitIndex L input i = clamp (n - 1) 0 ((L : Int) - 1) := by
      simp only [commitIndex, h]
    refine ⟨hc, fun h1 h2 => ?_, fun h1 h2 => ?_, fun h12 => ?_⟩
    · rw [hc]
      exact clamp_eq_self _ _ _ (by omega) (by omega)
    · simp only [handleJump, h, if_pos (And.intro h1 h2)]
    · simp only [handleJump, h, if_neg h12]
  · intro h
    exact ⟨by simp only [commitIndex, h], by simp only [handleJump, h]⟩

theorem spec_C4_jump_witness :
    commitIndex 4 "5" 2 = clamp ((5 : Int) - 1) 0 ((4 : Int) - 1) ∧ handleJump 4 "5" 2 = 2 := by
  have h := (spec_C4_jump 4 2 5 "5" (by decide)).1 (by decide)
  exact ⟨h.1, h.2.2.2 (by decide)⟩

/-! ## C10 — phone formatting is idempotent -/

theorem filter_phoneBuild (ds : List Char) (hall : ∀ c ∈ ds, Char.isDigit c = true) :
    (phoneBuild ds).filter Char.isDigit = ds := by
  have htake3 : (ds.take 3).filter Char.isDigit = ds.take 3 :=
    List.filter_eq_self.mpr fun a ha => hall a (List.mem_of_mem_take ha)
  have hmid : ((ds.drop 3).take 3).filter Char.isDigit = (ds.drop 3).take 3 :=
    List.filter_eq_self.mpr fun a ha => hall a (List.mem_of_mem_drop (List.mem_of_mem_take ha))
  have hdrop6 : (ds.drop 6).filter Char.isDigit = ds.drop 6 :=
    List.filter_eq_self.mpr fun a ha => hall a (List.mem_of_mem_drop ha)
  have c1 : Char.isDigit '(' = false := rfl
  have c2 : Char.isDigit ')' = false := rfl
  have c3 : Char.isDigit ' ' = false := rfl
  have c4 : Char.isDigit '-' = false := rfl
  simp only [phoneBuild, List.filter_append, List.filter_cons, c1, c2, c3, c4,
    Bool.false_eq_true, if_false, htake3, hmid, hdrop6]
  rw [show ds.drop 6 = (ds.drop 3).drop 3 by rw [List.drop_drop]]
  rw [List.append_assoc, List.take_append_drop, List.take_append_drop]

/-! ## Trimming lemmas -/

theorem dropWhile_idem (p : Char → Bool) (l : List Char) :
    (l.dropWhile p).dropWhile p = l.dropWhile p := by
  induction l with
  | nil => rfl
  | cons a t ih =>
    rw [List.dropWhile_cons]
    by_cases hp : p a = true
    · rw [if_pos hp]
      exact ih
    · rw [if_neg hp, List.dropWhile_cons, if_neg hp]

theorem dropWhile_head_not (p : Char → Bool) (l : List Char) :
    l.dropWhile p = [] ∨ ∃ c t, l.dropWhile p = c :: t ∧ p c = false := by
  induction l with
  | nil => exact Or.inl rfl
  | cons a t ih =>
    rw [List.dropWhile_cons]
    by_cases hp : p a = true
    · rw [if_pos hp]
      exact ih
    · rw [if_neg hp]
      refine Or.inr ⟨a, t, rfl, ?_⟩
      cases hpa : p a
      · rfl
      · exact absurd hpa hp

theorem jsTrimList_left (l : List Char) : jsTrimList l <+: l.dropWhile Char.isWhitespace := by
  rw [← List.reverse_suffix]
  simp only [jsTrimList, List.reverse_reverse]
  exact List.dropWhile_suffix _

theorem jsTrimList_front (l : List Char) :
    (jsTrimList l).dropWhile Char.isWhitespace = jsTrimList l := by
  rcases dropWhile_head_not Char.isWhitespace l with h | ⟨c, t, hct, hc⟩
  · have hnil : jsTrimList l = [] := by simp [jsTrimList, h]
    rw [hnil]
    rfl
  · rcases jsTrimList_left l with ⟨tail, htail⟩
    cases hj : jsTrimList l with
    | nil => rfl
    | cons x xs =>
      rw [hj, hct, List.cons_append] at htail
      injection htail with h1 _
      rw [List.dropWhile_cons, if_neg (by rw [h1, hc]; exact Bool.false_ne_true)]

theorem jsTrimList_back (l : List Char) :
    (jsTrimList l).reverse.dropWhile Char.isWhitespace = (jsTrimList l).reverse := by
  simp only [jsTrimList, List.reverse_reverse]
  exact dropWhile_idem _ _

theorem jsTrimList_idem (l : List Char) : jsTrimList (jsTrimList l) = jsTrimList l := by
  show (((jsTrimList l).dropWhile Char.isWhitespace).reverse.dropWhile Char.isWhitespace).reverse
      = jsTrimList l
  rw [jsTrimList_front, jsTrimList_back, List.reverse_reverse]

theorem jsTrim_idem (s : String) : jsTrim (jsTrim s) = jsTrim s :=
  congrArg String.mk (jsTrimList_idem s.data)

theorem jsTrim_trimField (f : Option String) : jsTrim (trimField f) = trimField f := by
  rcases f with _ | s
  · rfl
  · exact jsTrim_idem s

/-! ## C6 — CSV row normalisation and keep-filter -/

/-- C6: for every parsed CSV record list, every field of every surviving
record is trimmed of surrounding whitespace, and a row appears in the
dataset if and only if it is the normalised form of an input row with at
least one of businessName, companyName, siteUrl, phoneNumber non-empty
after trimming. -/
theorem spec_C6_parse (rows : List RawBusiness) :
    (∀ b ∈ parseBusinesses rows,
      jsTrim b.site_url = b.site_url ∧ jsTrim b.business_name = b.business_name ∧
      jsTrim b.industry = b.industry ∧ jsTrim b.company_name = b.company_name ∧
      jsTrim b.city = b.city ∧ jsTrim b.phone_number = b.phone_number) ∧
    (∀ b : Business, b ∈ parseBusinesses rows ↔
      ∃ r ∈ rows, b = cleanBusiness r ∧
        (b.business_name ≠ "" ∨ b.company_name ≠ "" ∨ b.site_url ≠ "" ∨ b.phone_number ≠ "")) := by
  have hkeep : ∀ b : Business, keepBusiness b = true ↔
      (b.business_name ≠ "" ∨ b.company_name ≠ "" ∨ b.site_url ≠ "" ∨ b.phone_number ≠ "") := by
    intro b
    simp only [keepBusiness, Bool.or_eq_true, bne_iff_ne, ne_eq]
    tauto
  constructor
  · intro b hb
    rcases List.mem_map.mp (List.mem_of_mem_filter hb) with ⟨r, _, hr⟩
    rw [← hr]
    exact ⟨jsTrim_trimField _, jsTrim_trimField _, jsTrim_trimField _,
      jsTrim_trimField _, jsTrim_trimField _, jsTrim_trimField _⟩
  · intro b
    rw [parseBusinesses, List.mem_filter, List.mem_map]
    constructor
    · rintro ⟨⟨r, hr, hrb⟩, hk⟩
      exact ⟨r, hr, hrb.symm, (hkeep b).mp hk⟩
    · rintro ⟨r, hr, hrb, hcond⟩
      exact ⟨⟨r, hr, hrb.symm⟩, (hkeep b).mpr hcond⟩

/-- A raw row whose tracked fields are all blank after trimming (its `city`
is populated, which does not save it). -/
def blankRow : RawBusiness := ⟨some "  ", some "", none, some " ", some "Toronto", some "  "⟩

/-- A raw row with only a phone number populated. -/
def phoneRow : RawBusiness := ⟨none, none, none, none, none, some " 5551234567 "⟩

theorem spec_C6_parse_witness :
    cleanBusiness phoneRow ∈ parseBusinesses [blankRow, phoneRow] ∧
    jsTrim (cleanBusiness phoneRow).phone_number = (cleanBusiness phoneRow).phone_number := by
  have hmem : cleanBusiness phoneRow ∈ parseBusinesses [blankRow, phoneRow] :=
    ((spec_C6_parse [blankRow, phoneRow]).2 (cleanBusiness phoneRow)).mpr
      ⟨phoneRow, by decide, rfl, by decide⟩
  exact ⟨hmem, ((spec_C6_parse [blankRow, phoneRow]).1 _ hmem).2.2.2.2.2⟩

/-! ## C7 — industry filter -/

/-- C7: for every dataset and every industry filter value, the active
subsequence is a sublist (hence order-preserving) containing exactly the
dataset rows whose industry field equals that value — membership and
multiplicity agree with the dataset — while an unset (empty) filter leaves
the full dataset. -/
theorem spec_C7_filter (bs : List Business) (v : String) :
    (v ≠ "" →
      (filteredBusinesses bs v).Sublist bs ∧
      (∀ b : Business, b ∈ filteredBusinesses bs v ↔ b ∈ bs ∧ b.industry = v) ∧
      (∀ b : Business, b.industry = v → (filteredBusinesses bs v).count b = bs.count b) ∧
      (∀ b : Business, b.industry ≠ v → (filteredBusinesses bs v).count b = 0)) ∧
    filteredBusinesses bs "" = bs := by
  constructor
  · intro hv
    unfold filteredBusinesses
    rw [if_neg hv]
    refine ⟨List.filter_sublist _, ?_, ?_, ?_⟩
    · intro b
      simp [List.mem_filter]
    · intro b hb
      exact List.count_filter (by simpa using hb)
    · intro b hb
      rw [List.count_eq_zero]
      intro hmem
      exact hb (by simpa using (List.mem_filter.mp hmem).2)
  · unfold filteredBusinesses
    rw [if_pos rfl]

/-- Sample business records, used to instantiate the state-machine theorems. -/
def bizLaw1 : Business := ⟨"https://a.example", "Alpha", "Law Firm", "Alpha LLC", "Toronto", "4375550100"⟩

def bizSpa : Business := ⟨"https://b.example", "Beta", "Spa", "Beta Inc", "Ottawa", "4375550101"⟩

def bizLaw2 : Business := ⟨"https://c.example", "Gamma", "Law Firm", "Gamma Co", "Hamilton", "4375550102"⟩

def bizMisc : Business := ⟨"https://d.example", "Delta", "Retail", "Delta Ltd", "Barrie", "4375550103"⟩

theorem spec_C7_filter_witness :
    bizLaw1 ∈ filteredBusinesses [bizLaw1, bizSpa, bizLaw2] "Law Firm" ∧
    filteredBusinesses [bizLaw1, bizSpa, bizLaw2] "" = [bizLaw1, bizSpa, bizLaw2] := by
  have h := spec_C7_filter [bizLaw1, bizSpa, bizLaw2] "Law Firm"
  exact ⟨((h.1 (by decide)).2.1 bizLaw1).mpr ⟨by decide, by decide⟩,
    (spec_C7_filter [bizLaw1, bizSpa, bizLaw2] "anything").2⟩

/-! ## State-machine lemmas -/

theorem persistEffect_hydrated (s : AppState) : (persistEffect s).hydrated = s.hydrated := by
  unfold persistEffect
  split <;> rfl

theorem persistEffect_currentIndex (s : AppState) :
    (persistEffect s).currentIndex = s.currentIndex := by
  unfold persistEffect
  split <;> rfl

theorem persistEffect_selectedIndustry (s : AppState) :
    (persistEffect s).selectedIndustry = s.selectedIndustry := by
  unfold persistEffect
  split <;> rfl

theorem persistEffect_of_not_hydrated (s : AppState) (h : s.hydrated = false) :
    persistEffect s = s := by
  unfold persistEffect
  rw [if_neg (by simp [h])]

theorem restoreEffect_store (s : AppState) : (restoreEffect s).store = s.store := by
  unfold restoreEffect
  split <;> rfl

theorem restoreEffect_url (s : AppState) : (restoreEffect s).url = s.url := by
  unfold restoreEffect
  split <;> rfl

theorem restoreEffect_selectedIndustry (s : AppState) :
    (restoreEffect s).selectedIndustry = s.selectedIndustry := by
  unfold restoreEffect
  split <;> rfl

theorem restoreEffect_hydrated_mono (s : AppState) (h : s.hydrated = true) :
    (restoreEffect s).hydrated = true := by
  unfold restoreEffect
  split
  · rfl
  · exact h

theorem restoreEffect_fires (s : AppState) (h1 : s.restoredOnce = false) (h2 : 0 < totalOf s) :
    restoreEffect s = { s with
      restoredOnce := true
      hydrated := true
      currentIndex := getStoredIndex (totalOf s) s.store.index } := by
  unfold restoreEffect
  rw [if_pos ⟨h1, h2⟩]

theorem restoreEffect_of_total_zero (s : AppState) (h : totalOf s = 0) : restoreEffect s = s := by
  unfold restoreEffect
  rw [if_neg]
  rintro ⟨-, h2⟩
  omega

theorem restoreEffect_not_hydrated (s : AppState) (h : (restoreEffect s).hydrated = false) :
    restoreEffect s = s ∧ s.hydrated = false := by
  by_cases hc : s.restoredOnce = false ∧ 0 < totalOf s
  · exfalso
    have ht : (restoreEffect s).hydrated = true := by
      unfold restoreEffect
      rw [if_pos hc]
    rw [ht] at h
    cases h
  · have he : restoreEffect s = s := by
      unfold restoreEffect
      rw [if_neg hc]
    rw [he] at h
    exact ⟨he, h⟩

theorem setIndex_currentIndex (s : AppState) (i : Int) : (setIndex s i).currentIndex = i := by
  unfold setIndex
  by_cases hc : i = s.currentIndex
  · rw [if_pos hc]
    exact hc.symm
  · rw [if_neg hc, persistEffect_currentIndex]

theorem setIndex_hydrated (s : AppState) (i : Int) : (setIndex s i).hydrated = s.hydrated := by
  unfold setIndex
  split
  · rfl
  · rw [persistEffect_hydrated]

theorem setIndex_not_hydrated (s : AppState) (i : Int) (h : s.hydrated = false) :
    (setIndex s i).store = s.store ∧ (setIndex s i).url = s.url := by
  unfold setIndex
  split
  · exact ⟨rfl, rfl⟩
  · have hp := persistEffect_of_not_hydrated { s with currentIndex := i } (by exact h)
    rw [hp]
    exact ⟨rfl, rfl⟩

theorem resetIndexZero_hydrated (s : AppState) : (resetIndexZero s).hydrated = s.hydrated := rfl

theorem resetIndexZero_currentIndex (s : AppState) : (resetIndexZero s).currentIndex = 0 := rfl

theorem resetIndexZero_selectedIndustry (s : AppState) :
    (resetIndexZero s).selectedIndustry = s.selectedIndustry := rfl

theorem filterSwitch_hydrated_of (s : AppState) (v : String) (h : s.hydrated = true) :
    (filterSwitch s v).hydrated = true := by
  unfold filterSwitch
  split
  · rw [persistEffect_hydrated]
    exact h
  · exact restoreEffect_hydrated_mono _ (by rw [persistEffect_hydrated]; exact h)

theorem filterSwitch_selectedIndustry (s : AppState) (v : String) :
    (filterSwitch s v).selectedIndustry = v := by
  unfold filterSwitch
  split
  · rw [persistEffect_selectedIndustry]
  · rw [restoreEffect_selectedIndustry, persistEffect_selectedIndustry]

theorem filterSwitch_not_hydrated (s : AppState) (v : String)
    (h : (filterSwitch s v).hydrated = false) :
    filterSwitch s v = { s with selectedIndustry := v } ∧ s.hydrated = false := by
  unfold filterSwitch at h ⊢
  split at h
  · next heq =>
    rw [if_pos heq]
    rw [persistEffect_hydrated] at h
    exact ⟨persistEffect_of_not_hydrated _ h, h⟩
  · next heq =>
    rw [if_neg heq]
    obtain ⟨h1, h2⟩ := restoreEffect_not_hydrated _ h
    rw [persistEffect_hydrated] at h2
    rw [h1, persistEffect_of_not_hydrated _ h2]
    exact ⟨rfl, h2⟩

theorem step_setFilter_of_eq (s : AppState) (v : String) (hv : v = s.selectedIndustry) :
    step s (Event.setFilter v) = (s, 0) := by
  simp only [step]
  rw [if_pos hv]

theorem step_setFilter_of_ne (s : AppState) (v : String) (hv : ¬v = s.selectedIndustry) :
    step s (Event.setFilter v) =
      if (filterSwitch s v).hydrated then
        (if s.currentIndex = 0 then resetIndexZero (filterSwitch s v)
         else persistEffect (resetIndexZero (filterSwitch s v)), 1)
      else (filterSwitch s v, 0) := by
  simp only [step]
  rw [if_neg hv]

theorem step_setFilter_of_ne_fst (s : AppState) (v : String) (hv : ¬v = s.selectedIndustry) :
    (step s (Event.setFilter v)).1 =
      if (filterSwitch s v).hydrated then
        (if s.currentIndex = 0 then resetIndexZero (filterSwitch s v)
         else persistEffect (resetIndexZero (filterSwitch s v)))
      else filterSwitch s v := by
  rw [step_setFilter_of_ne s v hv]
  split
  · rfl
  · rfl

theorem step_setFilter_of_ne_snd (s : AppState) (v : String) (hv : ¬v = s.selectedIndustry) :
    (step s (Event.setFilter v)).2 = if (filterSwitch s v).hydrated then 1 else 0 := by
  rw [step_setFilter_of_ne s v hv]
  split
  · rfl
  · rfl

theorem step_goPrev (s : AppState) :
    (step s Event.goPrev).1 =
      if 0 < s.currentIndex then setIndex s (max 0 (s.currentIndex - 1)) else s := rfl

theorem step_goNext (s : AppState) :
    (step s Event.goNext).1 =
      if s.currentIndex < (totalOf s : Int) - 1 then
        setIndex s (min ((totalOf s : Int) - 1) (s.currentIndex + 1))
      else s := rfl

theorem step_jump (s : AppState) (input : String) :
    (step s (Event.jump input)).1 = setIndex s (handleJump (totalOf s) input s.currentIndex) := rfl

theorem step_dataLoaded (s : AppState) (bs : List Business) :
    (step s (Event.dataLoaded bs)).1 =
      if (restoreEffect { s with businesses := bs }).currentIndex
          = ({ s with businesses := bs } : AppState).currentIndex then
        restoreEffect { s with businesses := bs }
      else persistEffect (restoreEffect { s with businesses := bs }) := rfl

theorem step_dataLoaded_currentIndex (s : AppState) (bs : List Business) :
    (step s (Event.dataLoaded bs)).1.currentIndex
      = (restoreEffect { s with businesses := bs }).currentIndex := by
  rw [step_dataLoaded]
  split
  · rfl
  · rw [persistEffect_currentIndex]

theorem filteredBusinesses_nil (v : String) : filteredBusinesses [] v = [] := by
  unfold filteredBusinesses
  split
  · rfl
  · rfl

theorem mount_eq (st : Store) (u : Url) :
    mount st u = { businesses := []
                   selectedIndustry := initialIndustry st u
                   currentIndex := 0
                   restoredOnce := false
                   hydrated := false
                   store := st
                   url := u } := by
  simp only [mount]
  rw [persistEffect_of_not_hydrated _ rfl]
  rw [restoreEffect_of_total_zero _ (by
    show (filteredBusinesses [] (initialIndustry st u)).length = 0
    rw [filteredBusinesses_nil]
    rfl)]
  rfl

/-! ## C1 — no persistence write before hydration -/

theorem step_hydrated_mono (s : AppState) (e : Event) (h : s.hydrated = true) :
    (step s e).1.hydrated = true := by
  cases e with
  | dataLoaded bs =>
    rw [step_dataLoaded]
    split
    · exact restoreEffect_hydrated_mono _ h
    · rw [persistEffect_hydrated]
      exact restoreEffect_hydrated_mono _ h
  | setFilter v =>
    by_cases hv : v = s.selectedIndustry
    · rw [step_setFilter_of_eq s v hv]
      exact h
    · rw [step_setFilter_of_ne_fst s v hv]
      have hs2 := filterSwitch_hydrated_of s v h
      rw [if_pos hs2]
      split
      · rw [resetIndexZero_hydrated]
        exact hs2
      · rw [persistEffect_hydrated, resetIndexZero_hydrated]
        exact hs2
  | goPrev =>
    rw [step_goPrev]
    split
    · rw [setIndex_hydrated]
      exact h
    · exact h
  | goNext =>
    rw [step_goNext]
    split
    · rw [setIndex_hydrated]
      exact h
    · exact h
  | jump input =>
    rw [step_jump, setIndex_hydrated]
    exact h

theorem step_suppressed (s : AppState) (e : Event) (h : (step s e).1.hydrated = false) :
    (step s e).1.store = s.store ∧ (step s e).1.url = s.url := by
  cases e with
  | dataLoaded bs =>
    rw [step_dataLoaded] at h ⊢
    split at h
    · next heq =>
      rw [if_pos heq]
      obtain ⟨h1, -⟩ := restoreEffect_not_hydrated _ h
      rw [h1]
      exact ⟨rfl, rfl⟩
    · next heq =>
      rw [if_neg heq]
      rw [persistEffect_hydrated] at h
      obtain ⟨h1, h2⟩ := restoreEffect_not_hydrated _ h
      rw [persistEffect_of_not_hydrated _ (by rw [h1]; exact h2), h1]
      exact ⟨rfl, rfl⟩
  | setFilter v =>
    by_cases hv : v = s.selectedIndustry
    · rw [step_setFilter_of_eq s v hv]
      exact ⟨rfl, rfl⟩
    · rw [step_setFilter_of_ne_fst s v hv] at h ⊢
      by_cases hs2 : (filterSwitch s v).hydrated = true
      · exfalso
        rw [if_pos hs2] at h
        split at h
        · rw [resetIndexZero_hydrated, hs2] at h
          cases h
        · rw [persistEffect_hydrated, resetIndexZero_hydrated, hs2] at h
          cases h
      · rw [if_neg hs2] at h ⊢
        have hs2f : (filterSwitch s v).hydrated = false := by
          cases hfs : (filterSwitch s v).hydrated
          · rfl
          · exact absurd hfs hs2
        obtain ⟨h1, -⟩ := filterSwitch_not_hydrated s v hs2f
        rw [h1]
        exact ⟨rfl, rfl⟩
  | goPrev =>
    rw [step_goPrev] at h ⊢
    split at h
    · next hc =>
      rw [if_pos hc]
      rw [setIndex_hydrated] at h
      exact setIndex_not_hydrated _ _ h
    · next hc =>
      rw [if_neg hc]
      exact ⟨rfl, rfl⟩
  | goNext =>
    rw [step_goNext] at h ⊢
    split at h
    · next hc =>
      rw [if_pos hc]
      rw [setIndex_hydrated] at h
      exact setIndex_not_hydrated _ _ h
    · next hc =>
      rw [if_neg hc]
      exact ⟨rfl, rfl⟩
  | jump input =>
    rw [step_jump] at h ⊢
    rw [setIndex_hydrated] at h
    exact setIndex_not_hydrated _ _ h

theorem run_cons (s : AppState) (e : Event) (es : List Event) :
    run s (e :: es) = run (step s e).1 es := rfl

theorem run_hydrated_mono (s : AppState) (es : List Event) (h : s.hydrated = true) :
    (run s es).hydrated = true := by
  induction es generalizing s with
  | nil => exact h
  | cons e es ih => exact ih _ (step_hydrated_mono s e h)

theorem run_suppressed (s : AppState) (es : List Event) (h : (run s es).hydrated = false) :
    (run s es).store = s.store ∧ (run s es).url = s.url := by
  induction es generalizing s with
  | nil => exact ⟨rfl, rfl⟩
  | cons e es ih =>
    rw [run_cons] at h ⊢
    have hstep : (step s e).1.hydrated = false := by
      cases hse : (step s e).1.hydrated
      · rfl
      · rw [run_hydrated_mono _ _ hse] at h
        cases h
    obtain ⟨h1, h2⟩ := ih (step s e).1 h
    obtain ⟨h3, h4⟩ := step_suppressed s e hstep
    exact ⟨h1.trans h3, h2.trans h4⟩

/-- C1: for every run, as long as the one-time hydration transition has not
happened, the key-value store and the URL still hold exactly their initial
contents — every persistence write (index, filter, and the `industry` URL
parameter) is preceded by hydration, so a fresh load that has not hydrated
never overwrites a previously saved position with the default 0. -/
theorem spec_C1_no_write_before_hydration (st : Store) (u : Url) (es : List Event)
    (h : (run (mount st u) es).hydrated = false) :
    (run (mount st u) es).store = st ∧ (run (mount st u) es).url = u := by
  obtain ⟨h1, h2⟩ := run_suppressed (mount st u) es h
  have hs : (mount st u).store = st := by rw [mount_eq]
  have hu : (mount st u).url = u := by rw [mount_eq]
  exact ⟨h1.trans hs, h2.trans hu⟩

theorem spec_C1_no_write_before_hydration_witness :
    (run (mount ⟨some "7", some "Spa"⟩ ⟨none⟩) [Event.goNext, Event.jump "3"]).hydrated = false ∧
    (run (mount ⟨some "7", some "Spa"⟩ ⟨none⟩) [Event.goNext, Event.jump "3"]).store
      = ⟨some "7", some "Spa"⟩ := by
  have h : (run (mount ⟨some "7", some "Spa"⟩ ⟨none⟩)
      [Event.goNext, Event.jump "3"]).hydrated = false := by decide
  exact ⟨h, (spec_C1_no_write_before_hydration _ _ _ h).1⟩

/-- C10: `formatPhoneNumber` is idempotent — a formatted `(XXX) XXX-XXXX`
output still contains exactly the same 10 digits and reformats to itself,
and any other input is returned unchanged. -/
theorem spec_C10_phone_idem (p : String) :
    formatPhoneNumber (formatPhoneNumber p) = formatPhoneNumber p := by
  by_cases h : (digitsOf p).length = 10
  · rw [formatPhoneNumber_of_ten p h]
    have hall : ∀ c ∈ digitsOf p, Char.isDigit c = true := fun c hc => (List.mem_filter.mp hc).2
    have hd : digitsOf (String.mk (phoneBuild (digitsOf p))) = digitsOf p := by
      simp only [digitsOf]
      exact filter_phoneBuild _ hall
    rw [formatPhoneNumber_of_ten _ (by rw [hd]; exact h), hd]
  · rw [formatPhoneNumber_of_ne p h, formatPhoneNumber_of_ne p h]

/-! ## C5 — previous/next navigation -/

/-- C5: with an active subsequence of length `L > 0` and index `i` in
`[0, L-1]`, `goPrevious` yields `max(0, i-1)` and `goNext` yields
`min(L-1, i+1)`; `goPrevious` at index 0 and `goNext` at index `L-1` are
no-ops (the buttons are disabled), so navigation never moves the index out
of `[0, L-1]`. -/
theorem spec_C5_navigation (s : AppState) (h0 : 0 ≤ s.currentIndex)
    (hlt : s.currentIndex < (totalOf s : Int)) :
    (step s Event.goPrev).1.currentIndex = max 0 (s.currentIndex - 1) ∧
    (step s Event.goNext).1.currentIndex = min ((totalOf s : Int) - 1) (s.currentIndex + 1) ∧
    (s.currentIndex = 0 → (step s Event.goPrev).1 = s) ∧
    (s.currentIndex = (totalOf s : Int) - 1 → (step s Event.goNext).1 = s) ∧
    (0 ≤ (step s Event.goPrev).1.currentIndex ∧
      (step s Event.goPrev).1.currentIndex < (totalOf s : Int)) ∧
    (0 ≤ (step s Event.goNext).1.currentIndex ∧
      (step s Event.goNext).1.currentIndex < (totalOf s : Int)) := by
  have hprev : (step s Event.goPrev).1.currentIndex = max 0 (s.currentIndex - 1) := by
    rw [step_goPrev]
    by_cases hp : 0 < s.currentIndex
    · rw [if_pos hp, setIndex_currentIndex]
    · rw [if_neg hp]
      have h00 : s.currentIndex = 0 := by omega
      rw [h00]
      decide
  have hnext : (step s Event.goNext).1.currentIndex
      = min ((totalOf s : Int) - 1) (s.currentIndex + 1) := by
    rw [step_goNext]
    by_cases hp : s.currentIndex < (totalOf s : Int) - 1
    · rw [if_pos hp, setIndex_currentIndex]
    · rw [if_neg hp, min_eq_left (by omega)]
      omega
  refine ⟨hprev, hnext, ?_, ?_, ?_, ?_⟩
  · intro h00
    rw [step_goPrev, if_neg (by omega)]
  · intro hEnd
    rw [step_goNext, if_neg (by omega)]
  · rw [hprev]
    exact ⟨le_max_left 0 _, max_lt (by omega) (by omega)⟩
  · rw [hnext]
    exact ⟨le_min (by omega) (by omega), lt_of_le_of_lt (min_le_left _ _) (by omega)⟩

/-- A hydrated in-memory state over two records, used as a concrete input. -/
def navState : AppState :=
  { businesses := [bizLaw1, bizSpa]
    selectedIndustry := ""
    currentIndex := 0
    restoredOnce := true
    hydrated := true
    store := ⟨some "0", some ""⟩
    url := ⟨none⟩ }

theorem spec_C5_navigation_witness :
    (step navState Event.goNext).1.currentIndex
      = min ((totalOf navState : Int) - 1) (navState.currentIndex + 1) ∧
    (step navState Event.goPrev).1 = navState := by
  have h := spec_C5_navigation navState (by decide) (by decide)
  exact ⟨h.2.1, h.2.2.1 (by decide)⟩

/-! ## C3 — filter change resets the index exactly once -/

/-- C3: from any hydrated state, changing the industry filter to a new value
fires the reset effect exactly once (index forced to 0); replaying the same
filter value immediately afterwards fires no reset (the same-value select
bails out, and the effect's `[selectedIndustry]` dep is unchanged on
re-renders); and no other event ever fires the reset effect — changing the
filter is the only mutation that forces the index back to 0. -/
theorem spec_C3_filter_reset (s : AppState) (v : String)
    (hh : s.hydrated = true) (hv : ¬v = s.selectedIndustry) :
    (step s (Event.setFilter v)).2 = 1 ∧
    (step s (Event.setFilter v)).1.currentIndex = 0 ∧
    (step (step s (Event.setFilter v)).1 (Event.setFilter v)).2 = 0 ∧
    (∀ e : Event, (∀ w : String, e ≠ Event.setFilter w) → (step s e).2 = 0) := by
  have hs2 := filterSwitch_hydrated_of s v hh
  have hcount : (step s (Event.setFilter v)).2 = 1 := by
    rw [step_setFilter_of_ne_snd s v hv, if_pos hs2]
  have hidx : (step s (Event.setFilter v)).1.currentIndex = 0 := by
    rw [step_setFilter_of_ne_fst s v hv, if_pos hs2]
    split
    · rw [resetIndexZero_currentIndex]
    · rw [persistEffect_currentIndex, resetIndexZero_currentIndex]
  have hind : (step s (Event.setFilter v)).1.selectedIndustry = v := by
    rw [step_setFilter_of_ne_fst s v hv, if_pos hs2]
    split
    · rw [resetIndexZero_selectedIndustry, filterSwitch_selectedIndustry]
    · rw [persistEffect_selectedIndustry, resetIndexZero_selectedIndustry,
        filterSwitch_selectedIndustry]
  refine ⟨hcount, hidx, ?_, ?_⟩
  · rw [step_setFilter_of_eq _ v hind.symm]
  · intro e he
    cases e with
    | dataLoaded bs => rfl
    | setFilter w => exact absurd rfl (he w)
    | goPrev => rfl
    | goNext => rfl
    | jump input => rfl

theorem spec_C3_filter_reset_witness :
    (step navState (Event.setFilter "Spa")).2 = 1 ∧
    (step navState (Event.setFilter "Spa")).1.currentIndex = 0 := by
  have h := spec_C3_filter_reset navState "Spa" (by decide) (by decide)
  exact ⟨h.1, h.2.1⟩

/-! ## C2 — persisted position round-trips across a restart -/

theorem intToString_natCast (k : Nat) : intToString ((k : Nat) : Int) = natToString k := by
  unfold intToString
  rw [if_neg (by omega), Int.natAbs_ofNat]

theorem natToString_two : natToString 2 = "2" := by
  show String.mk (natDigits 2) = "2"
  rw [natDigits, dif_pos (show (2 : Nat) < 10 by omega)]
  decide

/-- Reloading with a stored index `k` in range of the active subsequence
restores index `k`: the fresh mount reads back the stored filter, and once
the dataset arrives the restore effect hydrates the state with the stored,
clamped index. -/
theorem reload_restores (bs : List Business) (ind : String) (st : Store) (u : Url) (k : Nat)
    (hind : initialIndustry st u = ind)
    (hidx : st.index = some (natToString k))
    (hk : k < (filteredBusinesses bs ind).length) :
    (run (mount st u) [Event.dataLoaded bs]).currentIndex = (k : Int) := by
  have h1 : run (mount st u) [Event.dataLoaded bs] = (step (mount st u) (Event.dataLoaded bs)).1 :=
    rfl
  rw [h1, step_dataLoaded_currentIndex, mount_eq]
  show (restoreEffect { businesses := bs
                        selectedIndustry := initialIndustry st u
                        currentIndex := 0
                        restoredOnce := false
                        hydrated := false
                        store := st
                        url := u }).currentIndex = (k : Int)
  have htot : totalOf { businesses := bs
                        selectedIndustry := initialIndustry st u
                        currentIndex := 0
                        restoredOnce := false
                        hydrated := false
                        store := st
                        url := u } = (filteredBusinesses bs ind).length := by
    show (filteredBusinesses bs (initialIndustry st u)).length = _
    rw [hind]
  rw [restoreEffect_fires _ rfl (by rw [htot]; omega)]
  show getStoredIndex (totalOf { businesses := bs
                                 selectedIndustry := initialIndustry st u
                                 currentIndex := 0
                                 restoredOnce := false
                                 hydrated := false
                                 store := st
                                 url := u }) st.index = (k : Int)
  rw [htot, hidx]
  exact getStoredIndex_restore _ _ hk

/-- C2: round-trip of position persistence — from any hydrated state sitting
at index `k` of a non-empty active subsequence, the persist effect stores
the decimal text of `k`, and restarting (fresh mount on the persisted
storage and URL, then loading the identical dataset) restores index `k`. -/
theorem spec_C2_roundtrip (s : AppState) (k : Nat)
    (hh : s.hydrated = true) (hi : s.currentIndex = (k : Int)) (hk : k < totalOf s) :
    (persistEffect s).store.index = some (natToString k) ∧
    (run (mount (persistEffect s).store (persistEffect s).url)
      [Event.dataLoaded s.businesses]).currentIndex = (k : Int) := by
  have hps : persistEffect s = { s with
      store := ⟨some (intToString s.currentIndex), some s.selectedIndustry⟩
      url := ⟨if s.selectedIndustry = "" then none else some s.selectedIndustry⟩ } := by
    unfold persistEffect
    rw [if_pos hh]
  have hstore : (persistEffect s).store.index = some (natToString k) := by
    rw [hps]
    show some (intToString s.currentIndex) = some (natToString k)
    rw [hi, intToString_natCast]
  have hind : initialIndustry (persistEffect s).store (persistEffect s).url
      = s.selectedIndustry := by
    rw [hps]
    by_cases hse : s.selectedIndustry = ""
    · simp [initialIndustry, hse]
    · simp [initialIndustry, hse]
  exact ⟨hstore, reload_restores s.businesses s.selectedIndustry _ _ k hind hstore hk⟩

/-- A hydrated state over 4 records with no filter, sitting at index 2 with
stored text "2" — the spec's worked example. -/
def roundtripState : AppState :=
  { businesses := [bizLaw1, bizSpa, bizLaw2, bizMisc]
    selectedIndustry := ""
    currentIndex := 2
    restoredOnce := true
    hydrated := true
    store := ⟨some "2", some ""⟩
    url := ⟨none⟩ }

theorem spec_C2_roundtrip_witness :
    natToString 2 = "2" ∧
    (persistEffect roundtripState).store.index = some (natToString 2) ∧
    (run (mount (persistEffect roundtripState).store (persistEffect roundtripState).url)
      [Event.dataLoaded roundtripState.businesses]).currentIndex = (2 : Int) := by
  have h := spec_C2_roundtrip roundtripState 2 (by decide) (by decide) (by decide)
  exact ⟨natToString_two, h.1, h.2⟩

end ColdCalling
